import Mathlib

/-!
Verification of the ingestion/retrieval core of the Ableton Live RAG bot
against its specification.  The Python sources are shallowly embedded:
pure functions over strings and lists become Lean functions over
`List Char` / `List String`; the numpy floating computation of the vector
store is modelled over the real numbers; fallible operations return
`Option` / a `Bool` flag exactly as the source does.
-/

namespace Ragbot

/-! ## Character and string primitives

Python lines reaching the matchers come from `readlines()` followed by
`str.strip()`, so they contain no newline.  `\s` and `str.strip` are
modelled over the ASCII whitespace class (the manual text is ASCII). -/

/-- ASCII whitespace, the characters matched by Python's `\s` / stripped by `str.strip`. -/
def pyIsSpace (c : Char) : Bool :=
  c = ' ' || c = '\t' || c = '\n' || c = '\r' || c = '\x0b' || c = '\x0c'

/-- Python `str.strip()`: drop leading and trailing whitespace. -/
def pyStrip (s : String) : String :=
  String.mk (((s.data.dropWhile pyIsSpace).reverse.dropWhile pyIsSpace).reverse)

/-! ## src/pipeline/chunk_text.py -/

/-- `re.match(r"^(\d+)\.\s*(.*)$", line)`: a maximal leading digit run
(backtracking inside `\d+` cannot help, a shorter run is followed by a digit,
not `.`), then a literal dot, then greedy `\s*`, then `(.*)` takes the rest
(lines contain no newline, so `.` matches every remaining character).
Returns `(group 1, group 2)` on success. -/
def matchMain (s : List Char) : Option (String × String) :=
  match s.takeWhile Char.isDigit, s.dropWhile Char.isDigit with
  | [], _ => none
  | _ :: _, '.' :: t => some (String.mk (s.takeWhile Char.isDigit), String.mk (t.dropWhile pyIsSpace))
  | _ :: _, _ => none

/-- Greedy parse of `(?:\.\d+)*`: consume as many `.` + digit-run groups as
possible, returning the consumed characters and the remainder.  Giving back a
group (regex backtracking) leaves the remainder starting with `.`, which can
never satisfy the `\s+` that follows in the sub-heading pattern, so the
maximal-munch parse decides the match.  Fuel is the list length; every step
consumes at least two characters. -/
def dotGroupsF : Nat → List Char → List Char × List Char
  | 0, l => ([], l)
  | fuel + 1, l =>
    match l with
    | c :: c2 :: rest =>
      if c = '.' ∧ c2.isDigit then
        let ds := (c2 :: rest).takeWhile Char.isDigit
        let r := (c2 :: rest).dropWhile Char.isDigit
        let p := dotGroupsF fuel r
        ('.' :: (ds ++ p.1), p.2)
      else ([], c :: c2 :: rest)
    | _ => ([], l)

def dotGroups (l : List Char) : List Char × List Char := dotGroupsF l.length l

/-- `re.match(r"^(\d+(?:\.\d+)+)\s+(.+)", line)`: dotted numeral with at least
two components, mandatory whitespace, then a non-empty rest.  When the line
ends in whitespace only, `\s+` backtracks and `(.+)` matches the final
whitespace character (possible only with at least two trailing whitespace
characters); stripped lines never exercise that corner. -/
def matchSub (s : List Char) : Option (String × String) :=
  let ds := s.takeWhile Char.isDigit
  let r := s.dropWhile Char.isDigit
  if ds = [] then none
  else
    let p := dotGroups r
    if p.1 = [] then none
    else
      let sp := p.2.takeWhile pyIsSpace
      let rest := p.2.dropWhile pyIsSpace
      if sp = [] then none
      else if rest ≠ [] then some (String.mk (ds ++ p.1), String.mk rest)
      else if 2 ≤ sp.length then some (String.mk (ds ++ p.1), String.mk (sp.drop (sp.length - 1)))
      else none

/-- One `{"chunk_id": ..., "title": ...}` entry of a parent chain. -/
structure ChainEntry where
  chunk_id : String
  title : String
deriving DecidableEq, Repr

/-- The `Chunk` class of chunk_text.py (field order as in `__init__`). -/
structure Chunk where
  chunk_id : String
  title : String
  content : String
  level : String
  parent_chain : List ChainEntry
deriving DecidableEq, Repr

/-- `_level`: `("main", "sub", "subsub", "deep")[min(chunk_id.count("."), 3)]`. -/
def _level (chunk_id : String) : String :=
  match min (chunk_id.data.count '.') 3 with
  | 0 => "main"
  | 1 => "sub"
  | 2 => "subsub"
  | _ => "deep"

/-- `_build_chain`: decompose the id into its dotted ancestors, resolve each
title from the running chain (first hit wins, as `next(...)` does), falling
back to `"Chapter {pid}"`, and append the current heading. -/
def _build_chain (current_id current_title : String) (chain : List ChainEntry) : List ChainEntry :=
  let parts := current_id.splitOn "."
  ((List.range (parts.length - 1)).map (fun i =>
    let pid := String.intercalate "." (parts.take (i + 1))
    { chunk_id := pid
      title := ((chain.find? (fun p => p.chunk_id == pid)).map (fun p => p.title)).getD ("Chapter " ++ pid) }))
  ++ [{ chunk_id := current_id, title := current_title }]

/-- The mutable locals of `chunk_text_from_file`'s loop. -/
structure ChunkState where
  chunks : List Chunk
  current_id : Option String
  current_title : String
  current_content : List String
  chain : List ChainEntry

/-- Emit the currently open chunk, if any: content is the space-joined,
stripped body lines; the parent chain is the running chain minus its own
trailing entry (`chain[:-1]`). -/
def closeChunk (st : ChunkState) : List Chunk :=
  match st.current_id with
  | none => st.chunks
  | some cid =>
    st.chunks ++ [{ chunk_id := cid, title := st.current_title
                    content := pyStrip (String.intercalate " " st.current_content)
                    level := _level cid
                    parent_chain := st.chain.dropLast }]

/-- The loop body of `chunk_text_from_file`: strip the line, skip it when
empty, otherwise try the main-heading pattern first (`if main_m: ... else:`),
then the sub-heading pattern, else accumulate body text. -/
def processLine (st : ChunkState) (rawLine : String) : ChunkState :=
  let line := pyStrip rawLine
  if line = "" then st
  else
    match matchMain line.data, matchSub line.data with
    | some (gid, gtitle), _ =>
      let t := if gtitle = "" then "Chapter " ++ gid else gtitle
      { chunks := closeChunk st, current_id := some gid, current_title := t
        current_content := [], chain := [{ chunk_id := gid, title := t }] }
    | none, some (gid, gtitle) =>
      { chunks := closeChunk st, current_id := some gid, current_title := gtitle
        current_content := [], chain := _build_chain gid gtitle st.chain }
    | none, none =>
      { st with current_content := st.current_content ++ [line] }

/-- `chunk_text_from_file`, abstracted over file I/O: its segmentation of the
input line sequence into chunks (the JSONL writing serialises the returned
list one object per line and is not modelled). -/
def chunk_text_from_file (lines : List String) : List Chunk :=
  closeChunk (lines.foldl processLine
    { chunks := [], current_id := none, current_title := "", current_content := [], chain := [] })

/-! ## Heading classification of a single line, and the emitted id sequence -/

/-- The heading id (if any) that `chunk_text_from_file`'s loop extracts from a
raw line: strip, skip empty, main pattern first, sub pattern second. -/
def lineHeading (rawLine : String) : Option String :=
  let line := pyStrip rawLine
  if line = "" then none
  else
    match matchMain line.data, matchSub line.data with
    | some (gid, _), _ => some gid
    | none, some (gid, _) => some gid
    | none, none => none

/-- The chunk ids already emitted by a state, plus the pending open chunk's id. -/
def idsOf (st : ChunkState) : List String :=
  st.chunks.map (fun c => c.chunk_id) ++
    (match st.current_id with
     | none => []
     | some cid => [cid])

/-! ## src/core/vector_store.py

The numpy float64 computation is modelled over the real numbers.  `np.dot`
raises on 1-D arrays of different lengths; the spec declares search against
heterogeneous dimensions undefined behaviour ("must be guarded by the
caller"), so the search theorems assume equal dimensions and the model uses a
truncating `zipWith` product. -/

/-- `np.dot` on two equal-length 1-D arrays: the sum of pairwise products. -/
def npDot (a b : List ℝ) : ℝ := (List.zipWith (fun x y => x * y) a b).sum

/-- `np.linalg.norm`: the Euclidean norm. -/
noncomputable def pynorm (v : List ℝ) : ℝ := Real.sqrt (npDot v v)

/-- One similarity: `float(np.dot(qv, vec) / (qn * vn)) if qn and vn else 0.0`
(a float is falsy exactly when it equals zero). -/
noncomputable def cosSim (qv vec : List ℝ) : ℝ :=
  if pynorm qv ≠ 0 ∧ pynorm vec ≠ 0 then npDot qv vec / (pynorm qv * pynorm vec)
  else 0

/-- The three parallel lists of `VectorStore.__init__`; the metadata dicts are
carried opaquely, here as a type parameter. -/
structure VectorStore (M : Type) where
  vectors : List (List ℝ)
  texts : List String
  metadata : List M

def VectorStore.empty (M : Type) : VectorStore M :=
  { vectors := [], texts := [], metadata := [] }

/-- `add`: append one record to each of the three lists (`metadata or {}` is
the caller-side default and is inlined here). -/
def VectorStore.add {M : Type} (s : VectorStore M) (text : String)
    (embedding : List ℝ) (md : M) : VectorStore M :=
  { vectors := s.vectors ++ [embedding], texts := s.texts ++ [text]
    metadata := s.metadata ++ [md] }

/-- The parallel-lists invariant, maintained by `empty`, `add` and `load`. -/
def VectorStore.Wf {M : Type} (s : VectorStore M) : Prop :=
  s.texts.length = s.vectors.length ∧ s.metadata.length = s.vectors.length

/-- The `scores` list of `search`: `enumerate(self.vectors)` paired with the
similarity of each vector to the query, indices starting at `i`. -/
noncomputable def scoresFrom (qv : List ℝ) : Nat → List (List ℝ) → List (Nat × ℝ)
  | _, [] => []
  | i, v :: vs => (i, cosSim qv v) :: scoresFrom qv (i + 1) vs

/-- `scores.sort(key=lambda x: x[1], reverse=True)`: Python's sort is stable,
and `reverse=True` keeps equal-key elements in original order; insertion sort
with "`a` stays before `b` iff `b`'s key ≤ `a`'s key" implements exactly that
(descending keys, ties in input order). -/
noncomputable def sortScores (scores : List (Nat × ℝ)) : List (Nat × ℝ) :=
  @List.insertionSort (Nat × ℝ) (fun a b => b.2 ≤ a.2)
    (fun a b => Real.decidableLE b.2 a.2) scores

/-- Python slice `l[:k]` for an int `k`: a nonnegative `k` takes the first
`min(k, len)` elements, a negative `k` drops the last `-k` (clamped at zero). -/
def pySliceTo {α : Type} (l : List α) (k : Int) : List α :=
  if 0 ≤ k then l.take k.toNat else l.take ((l.length : Int) + k).toNat

/-- One entry of `search`'s result list. -/
structure SearchHit (M : Type) where
  text : String
  metadata : M
  similarity : ℝ

/-- `search`: empty store short-circuits; otherwise score every record, sort
descending (stable), slice to `k`, and attach text and metadata.  The list
indexing `self.texts[i]` / `self.metadata[i]` is total here via `getD`; under
`Wf` every produced index is in bounds, so the default is never used. -/
noncomputable def VectorStore.search {M : Type} [Inhabited M] (s : VectorStore M)
    (query_embedding : List ℝ) (k : Int) : List (SearchHit M) :=
  match s.vectors with
  | [] => []
  | _ :: _ =>
    (pySliceTo (sortScores (scoresFrom query_embedding 0 s.vectors)) k).map
      (fun p => { text := s.texts.getD p.1 "", metadata := s.metadata.getD p.1 default
                  similarity := p.2 })

/-- The stable-descending order on scored entries: strictly larger similarity
first, ties resolved by insertion index. -/
def simLex (a b : Nat × ℝ) : Prop := b.2 < a.2 ∨ (a.2 = b.2 ∧ a.1 ≤ b.1)

/-- Modelled from the spec: the Parquet table written by `save` and read back
by `load`.  The polars `write_parquet` / `read_parquet` pair is an external
library; spec §6 fixes its contract — three columns (`vectors`, `texts`,
`metadata`), one row per record, row order preserved and floating-point
values exact — so the file is modelled as the column triple itself. -/
structure ParquetFile (M : Type) where
  vectors : List (List ℝ)
  texts : List String
  metadata : List M

/-- `save`: write the three parallel lists as the three columns. -/
def VectorStore.save {M : Type} (s : VectorStore M) : ParquetFile M :=
  { vectors := s.vectors, texts := s.texts, metadata := s.metadata }

/-- `load`: `none` models a missing file (`os.path.exists` returning false):
log and return `False`, leaving the store untouched; otherwise replace the
three parallel lists with the file's columns and return `True`. -/
def VectorStore.load {M : Type} (s : VectorStore M) (file : Option (ParquetFile M)) :
    Bool × VectorStore M :=
  match file with
  | none => (false, s)
  | some f => (true, { vectors := f.vectors, texts := f.texts, metadata := f.metadata })

/-- Populate a fresh store by a sequence of `add` calls. -/
def buildStore {M : Type} (records : List (String × List ℝ × M)) : VectorStore M :=
  records.foldl (fun st r => st.add r.1 r.2.1 r.2.2) (VectorStore.empty M)

/-- A concrete two-record store used by the search witnesses and
counterexample; the zero vectors make every similarity the substituted 0. -/
noncomputable def storeEx : VectorStore Unit :=
  ((VectorStore.empty Unit).add "a" [0] ()).add "b" [0] ()

/-! ## Build-time pipeline stage drivers (the `main()` functions)

Only the file-existence control flow and the written artifacts are modelled;
logging and directory creation are effect-free on the artifacts.  The
filesystem is the record of the four artifact paths from config.py. -/

/-- Python `readlines`: lines keep their `"\n"` terminator; a file without a
trailing newline yields a final unterminated line; the empty file yields no
lines. -/
def pyReadlinesAux : List Char → List Char → List String
  | acc, [] => if acc = [] then [] else [String.mk acc.reverse]
  | acc, '\n' :: rest => String.mk ('\n' :: acc).reverse :: pyReadlinesAux [] rest
  | acc, c :: rest => pyReadlinesAux (c :: acc) rest

def pyReadlines (t : String) : List String := pyReadlinesAux [] t.data

/-- The artifact paths of config.py: PDF_PATH, MANUAL_TEXT_PATH, CHUNKS_PATH,
EMBEDDINGS_PATH.  `none` means the file does not exist. -/
structure FS where
  pdf : Option String
  manualText : Option String
  chunksFile : Option (List Chunk)
  embeddingsFile : Option (ParquetFile Chunk)

/-- extract_text.main: abort when the input PDF is missing; otherwise write
the extracted text to the manual-text path unconditionally (PDF decoding is
external, so the extraction result is a parameter). -/
def extract_main (extracted : String) (fs : FS) : FS :=
  match fs.pdf with
  | none => fs
  | some _ => { fs with manualText := some extracted }

/-- chunk_text.main: abort when the manual text is missing; otherwise run the
chunker on the file's lines and write the chunk list unconditionally (the
JSONL encoding, one object per line, is modelled by the list itself). -/
def chunk_main (fs : FS) : FS :=
  match fs.manualText with
  | none => fs
  | some t => { fs with chunksFile := some (chunk_text_from_file (pyReadlines t)) }

/-- build_index.main: skip when the output index already exists; otherwise
load the chunks (`load_chunks` catches `FileNotFoundError` and yields `[]`),
keep those with non-blank content, abort when none remain, else embed every
kept chunk (the embedding model is external — `embed` is a parameter; the
batching preserves order) and save the resulting store. -/
def build_main (embed : String → List ℝ) (fs : FS) : FS :=
  match fs.embeddingsFile with
  | some _ => fs
  | none =>
    let chunks := (match fs.chunksFile with
      | none => []
      | some cs => cs).filter (fun c => pyStrip c.content != "")
    if chunks = [] then fs
    else
      let store := chunks.foldl
        (fun st c => st.add c.content (embed c.content) c) (VectorStore.empty Chunk)
      { fs with embeddingsFile := some store.save }

/-- A state with an existing chunks artifact and a present manual text: the
chunking stage overwrites the artifact. -/
def fsChunkDemo : FS :=
  { pdf := none, manualText := some "1. A"
    chunksFile := some [{ chunk_id := "9", title := "Old", content := "x"
                          level := "main", parent_chain := [] }]
    embeddingsFile := none }

/-- A state whose index artifact already exists: the index stage skips. -/
def fsIndexDemo : FS :=
  { pdf := none, manualText := none, chunksFile := none
    embeddingsFile := some { vectors := [], texts := [], metadata := [] } }

/-! ## src/pipeline/extract_text.py — `_clean_line`

Each `re.sub` call is embedded as a left-to-right scanner: at every position
it attempts the pattern; on success it emits the replacement and resumes
after the matched span (matches are non-overlapping), otherwise it emits one
character and advances.  Every pattern below is deterministic at a given
start position — the greedy sub-expressions are maximal runs whose possible
backtracking provably cannot produce a match that the maximal parse misses
(shrinking a digit run leaves a digit where a dot or whitespace is required,
and shrinking a `(\.\d+)*` loop leaves a dot where whitespace is required) —
so each rule function computes that unique match.  The scanner's fuel is the
string length: every step consumes at least one character. -/

/-- Generic `re.sub` scanner: `tryRule l` returns `some (replacement, rest)`
when the pattern matches a non-empty prefix of `l`. -/
def scanWith (tryRule : List Char → Option (List Char × List Char)) :
    Nat → List Char → List Char
  | _, [] => []
  | 0, l => l
  | fuel + 1, c :: l =>
    match tryRule (c :: l) with
    | some (rep, rest) => rep ++ scanWith tryRule fuel rest
    | none => c :: scanWith tryRule fuel l

def pySub (tryRule : List Char → Option (List Char × List Char))
    (s : List Char) : List Char :=
  scanWith tryRule s.length s

/-- The `(?:\d+\s?){1,allow}$` tail of the page-number pattern: at most
`allow` digit runs, each followed by at most one whitespace character, ending
exactly at the end of the line.  (Splitting a digit run over several `\d+`
groups only ever uses more of the `{1,3}` budget, so counting maximal runs
decides the match.) -/
def pageGroups : Nat → List Char → Bool
  | _, [] => false
  | 0, _ => false
  | allow + 1, l =>
    let ds := l.takeWhile Char.isDigit
    let r := l.dropWhile Char.isDigit
    if ds = [] then false
    else
      match r with
      | [] => true
      | c :: r2 => pyIsSpace c && (r2 = [] || pageGroups allow r2)

/-- Does `re.sub(r'\s+(?:\d+\s?){1,3}$', ...)`'s pattern match starting at
this position?  `\s+` must absorb the whole whitespace run (the first group
starts with a digit). -/
def tailPageMatch (l : List Char) : Bool :=
  match l with
  | [] => false
  | c :: _ => pyIsSpace c && pageGroups 3 (l.dropWhile pyIsSpace)

/-- `re.sub(r'\s+(?:\d+\s?){1,3}$', '', s)`: the pattern is anchored at the
end, so there is at most one (leftmost) match; scan for the first position
whose suffix matches and cut there. -/
def stripTrailingPages : List Char → List Char
  | [] => []
  | c :: l => if tailPageMatch (c :: l) then [] else c :: stripTrailingPages l

/-- `re.fullmatch(r'^\d+(\.\d+)*\.?$', norm)` as a three-state automaton:
a digit run, then dot-separated digit runs, with one optional trailing dot. -/
inductive NumSt
  | start
  | digits
  | afterDot

def bareNumAux : NumSt → List Char → Bool
  | NumSt.start, [] => false
  | NumSt.digits, [] => true
  | NumSt.afterDot, [] => true
  | NumSt.start, c :: l => c.isDigit && bareNumAux NumSt.digits l
  | NumSt.digits, c :: l =>
    if c.isDigit then bareNumAux NumSt.digits l
    else if c = '.' then bareNumAux NumSt.afterDot l
    else false
  | NumSt.afterDot, c :: l => c.isDigit && bareNumAux NumSt.digits l

def bareNum (l : List Char) : Bool := bareNumAux NumSt.start l

/-- `re.sub(r'^(\d+)\s+(\d+)(\s*\.)', r'\1\2\3', s)`: anchored at the start
(so at most one substitution), it deletes the whitespace between two leading
digit runs when a dot follows. -/
def mergeLeadingSplit (s : List Char) : List Char :=
  let d1 := s.takeWhile Char.isDigit
  let r1 := s.dropWhile Char.isDigit
  let w1 := r1.takeWhile pyIsSpace
  let r2 := r1.dropWhile pyIsSpace
  let d2 := r2.takeWhile Char.isDigit
  let r3 := r2.dropWhile Char.isDigit
  let w2 := r3.takeWhile pyIsSpace
  let r4 := r3.dropWhile pyIsSpace
  if d1 ≠ [] ∧ w1 ≠ [] ∧ d2 ≠ [] ∧ r4.head? = some '.' then d1 ++ d2 ++ w2 ++ r4
  else s

/-- Rule of `re.sub(r'(\d+)\s*\.\s*(\d+)', r'\1.\2', s)`. -/
def tryDotJoin (l : List Char) : Option (List Char × List Char) :=
  let d1 := l.takeWhile Char.isDigit
  let r1 := l.dropWhile Char.isDigit
  let r2 := r1.dropWhile pyIsSpace
  match d1, r2 with
  | [], _ => none
  | _ :: _, '.' :: r3 =>
    let r4 := r3.dropWhile pyIsSpace
    let d2 := r4.takeWhile Char.isDigit
    let r5 := r4.dropWhile Char.isDigit
    if d2 = [] then none else some (d1 ++ '.' :: d2, r5)
  | _, _ => none

/-- Rule of
`re.sub(r'(\d+\.\d+(?:\.\d+)*)\s+(\d+\.\d+(?:\.\d+)*)', r'\1.\2', s)`:
two dotted numerals (each with at least two components) separated by
whitespace collapse into one. -/
def tryMergeDotted (l : List Char) : Option (List Char × List Char) :=
  let d1 := l.takeWhile Char.isDigit
  let r1 := l.dropWhile Char.isDigit
  if d1 = [] then none
  else
    let p1 := dotGroups r1
    if p1.1 = [] then none
    else
      let sp := p1.2.takeWhile pyIsSpace
      let r2 := p1.2.dropWhile pyIsSpace
      if sp = [] then none
      else
        let d2 := r2.takeWhile Char.isDigit
        let r3 := r2.dropWhile Char.isDigit
        if d2 = [] then none
        else
          let p2 := dotGroups r3
          if p2.1 = [] then none
          else some (d1 ++ p1.1 ++ '.' :: (d2 ++ p2.1), p2.2)

/-- Rule of `re.sub(r'(\d+\.\d+)\s+(\d)(?!\.)', r'\1\2', s)`: a dotted pair,
whitespace, then a single digit not followed by a dot. -/
def tryAttachDigit (l : List Char) : Option (List Char × List Char) :=
  let d1 := l.takeWhile Char.isDigit
  let r1 := l.dropWhile Char.isDigit
  match d1, r1 with
  | [], _ => none
  | _ :: _, '.' :: r2 =>
    let d2 := r2.takeWhile Char.isDigit
    let r3 := r2.dropWhile Char.isDigit
    if d2 = [] then none
    else
      let sp := r3.takeWhile pyIsSpace
      let r4 := r3.dropWhile pyIsSpace
      if sp = [] then none
      else
        match r4 with
        | c :: rest =>
          if c.isDigit ∧ rest.head? ≠ some '.' then some (d1 ++ '.' :: (d2 ++ [c]), rest)
          else none
        | [] => none
  | _, _ => none

/-- Rule of `re.sub(r'(\d+\.)\s+(\d+)', r'\1\2', s)`: digits-dot, whitespace,
digits; the whitespace is deleted. -/
def tryJoinAfterDot (l : List Char) : Option (List Char × List Char) :=
  let d1 := l.takeWhile Char.isDigit
  let r1 := l.dropWhile Char.isDigit
  match d1, r1 with
  | [], _ => none
  | _ :: _, '.' :: r2 =>
    let sp := r2.takeWhile pyIsSpace
    let r3 := r2.dropWhile pyIsSpace
    if sp = [] then none
    else
      let d2 := r3.takeWhile Char.isDigit
      let r4 := r3.dropWhile Char.isDigit
      if d2 = [] then none else some (d1 ++ '.' :: d2, r4)
  | _, _ => none

/-- Rule of `re.sub(r'(\d+)\s*\.\s*(?=\S)', r'\1.', s)`: digits, optional
whitespace, a dot, optional whitespace, with a non-space character lookahead;
the matched span ends before that character, which is not consumed. -/
def tryTightenDot (l : List Char) : Option (List Char × List Char) :=
  let d1 := l.takeWhile Char.isDigit
  let r1 := l.dropWhile Char.isDigit
  let r2 := r1.dropWhile pyIsSpace
  match d1, r2 with
  | [], _ => none
  | _ :: _, '.' :: r3 =>
    let r4 := r3.dropWhile pyIsSpace
    match r4 with
    | [] => none
    | _ :: _ => some (d1 ++ ['.'], r4)
  | _, _ => none

/-- Rule of `re.sub(r'\.\s*\.', '.', s)`. -/
def tryDoubleDot (l : List Char) : Option (List Char × List Char) :=
  match l with
  | '.' :: r1 =>
    match r1.dropWhile pyIsSpace with
    | '.' :: r3 => some (['.'], r3)
    | _ => none
  | _ => none

/-- Rule of `re.sub(r'\.\.+', '.', s)`: two or more dots (greedy). -/
def tryManyDots (l : List Char) : Option (List Char × List Char) :=
  match l with
  | '.' :: '.' :: r => some (['.'], r.dropWhile (fun c => c = '.'))
  | _ => none

/-- Rule of `re.sub(r'\.+', '.', s)`: one or more dots (greedy). -/
def tryDotRun (l : List Char) : Option (List Char × List Char) :=
  match l with
  | '.' :: r => some (['.'], r.dropWhile (fun c => c = '.'))
  | _ => none

/-- Rule of `re.sub(r'\s+', ' ', s)`: a whitespace run becomes one space. -/
def tryWsRun (l : List Char) : Option (List Char × List Char) :=
  match l with
  | c :: r => if pyIsSpace c then some ([' '], r.dropWhile pyIsSpace) else none
  | [] => none

/-- `_clean_line` from extract_text.py, rule for rule in source order. -/
def _clean_line (line : String) : String :=
  let s0 := (pyStrip line).data
  let s1 := stripTrailingPages s0
  if s1 = [] then ""
  else if s1.all pyIsSpace then ""
  else if s1.all (fun c => c = '-') then ""
  else
    let norm := (pySub tryDotRun s1).filter (fun c => !(pyIsSpace c))
    if bareNum norm then ""
    else
      let s2 := mergeLeadingSplit s1
      let s3 := pySub tryDotJoin s2
      let s4 := pySub tryMergeDotted s3
      let s5 := pySub tryAttachDigit s4
      let s6 := pySub tryJoinAfterDot s5
      let s7 := pySub tryTightenDot s6
      let s8 := pySub tryDoubleDot s7
      let s9 := pySub tryManyDots s8
      pyStrip (String.mk (pySub tryWsRun s9))

/-! ## The "main branch only" chunk property (claim C2) -/

/-- Every chunk the chunker can actually emit: dot-free id, level `"main"`,
empty parent chain. -/
def MainOnlyChunk (c : Chunk) : Prop :=
  c.chunk_id.data.count '.' = 0 ∧ c.level = "main" ∧ c.parent_chain = []

/-- The loop invariant behind `MainOnlyChunk`. -/
def MainOnlyState (st : ChunkState) : Prop :=
  (∀ c ∈ st.chunks, MainOnlyChunk c) ∧
  ∀ cid, st.current_id = some cid → cid.data.count '.' = 0 ∧ st.chain.dropLast = []

/-! ## Lemmas about the matchers -/

theorem dotGroupsF_fst_ne {n : Nat} {l : List Char}
    (h : (dotGroupsF n l).1 ≠ []) : ∃ t, l = '.' :: t := by
  match n, l with
  | 0, l => exact absurd rfl h
  | n + 1, [] => exact absurd rfl h
  | n + 1, [c] => exact absurd rfl h
  | n + 1, c :: c2 :: rest =>
    by_cases hc : c = '.' ∧ c2.isDigit
    · exact ⟨c2 :: rest, by rw [hc.1]⟩
    · rw [dotGroupsF, if_neg hc] at h
      exact absurd rfl h

theorem matchSub_isSome_matchMain {s : List Char} (h : (matchSub s).isSome) :
    (matchMain s).isSome := by
  unfold matchSub at h
  by_cases hds : s.takeWhile Char.isDigit = []
  · simp [hds] at h
  · simp only [hds, if_false, reduceIte] at h
    by_cases hg : (dotGroups (s.dropWhile Char.isDigit)).1 = []
    · simp [hg] at h
    · obtain ⟨t, ht⟩ := dotGroupsF_fst_ne (n := (s.dropWhile Char.isDigit).length) (by
        simpa [dotGroups] using hg)
      obtain ⟨a, as, hta⟩ := List.exists_cons_of_ne_nil hds
      unfold matchMain
      rw [hta, ht]
      rfl

theorem matchMain_fst_no_dot {s : List Char} {g t : String}
    (h : matchMain s = some (g, t)) : g.data.count '.' = 0 := by
  unfold matchMain at h
  split at h
  · exact absurd h (by simp)
  · cases h
    refine List.count_eq_zero.2 (fun hmem => ?_)
    have := List.mem_takeWhile_imp hmem
    simp at this
  · exact absurd h (by simp)

theorem _level_main {cid : String} (h : cid.data.count '.' = 0) :
    _level cid = "main" := by
  unfold _level
  rw [h]
  rfl

theorem closeChunk_mainOnly {st : ChunkState} (h : MainOnlyState st) :
    ∀ c ∈ closeChunk st, MainOnlyChunk c := by
  intro c hc
  unfold closeChunk at hc
  cases hcur : st.current_id with
  | none => exact h.1 c (by rwa [hcur] at hc)
  | some cid =>
    rw [hcur] at hc
    rcases List.mem_append.1 hc with hold | hnew
    · exact h.1 c hold
    · obtain ⟨hcount, hchain⟩ := h.2 cid hcur
      have : c = { chunk_id := cid, title := st.current_title
                   content := pyStrip (String.intercalate " " st.current_content)
                   level := _level cid, parent_chain := st.chain.dropLast } := by
        simpa using hnew
      subst this
      exact ⟨hcount, _level_main hcount, hchain⟩

theorem processLine_mainOnly {st : ChunkState} (line : String)
    (h : MainOnlyState st) : MainOnlyState (processLine st line) := by
  unfold processLine
  by_cases hempty : pyStrip line = ""
  · simpa [hempty] using h
  · rcases hm : matchMain (pyStrip line).data with _ | ⟨gid, gtitle⟩
    · rcases hs : matchSub (pyStrip line).data with _ | ⟨sid, stitle⟩
      · simp only [hempty, if_false, reduceIte, hm, hs]
        exact ⟨h.1, h.2⟩
      · exfalso
        have : (matchMain (pyStrip line).data).isSome :=
          matchSub_isSome_matchMain (by rw [hs]; rfl)
        rw [hm] at this
        exact absurd this (by simp)
    · simp only [hempty, if_false, reduceIte, hm]
      refine ⟨closeChunk_mainOnly h, ?_⟩
      intro cid hcid
      cases hcid
      exact ⟨matchMain_fst_no_dot hm, rfl⟩

theorem foldl_processLine_mainOnly (lines : List String) :
    ∀ st : ChunkState, MainOnlyState st →
      MainOnlyState (lines.foldl processLine st) := by
  induction lines with
  | nil => exact fun st h => h
  | cons l ls ih => exact fun st h => ih _ (processLine_mainOnly l h)

/-- C2: whenever the sub-heading pattern `^\d+(?:\.\d+)+\s+(.+)` matches a
line, the main-heading pattern `^(\d+)\.\s*(.*)$` matches it too; since the
chunker tests the main pattern first, its sub-heading branch is dead, so every
chunk produced by `chunk_text_from_file`, for any input, has an id with no
dots, level `"main"` and an empty parent chain. -/
theorem C2_sub_branch_shadowed :
    (∀ s : List Char, (matchSub s).isSome → (matchMain s).isSome) ∧
    ∀ (lines : List String), ∀ c ∈ chunk_text_from_file lines,
      c.chunk_id.data.count '.' = 0 ∧ c.level = "main" ∧ c.parent_chain = [] := by
  refine ⟨fun s h => matchSub_isSome_matchMain h, fun lines c hc => ?_⟩
  have hst : MainOnlyState
      { chunks := [], current_id := none, current_title := ""
        current_content := [], chain := [] } := by
    exact ⟨by simp, by simp⟩
  exact closeChunk_mainOnly (foldl_processLine_mainOnly lines _ hst) c hc

/-- Witness for C2 at concrete inputs: the sub-style line `"1.1 Details"` is
matched by the main pattern, and the single chunk produced from
`["1. Overview", "body"]` has an empty parent chain. -/
theorem C2_sub_branch_shadowed_witness :
    (matchMain "1.1 Details".data).isSome ∧
    Chunk.parent_chain
      { chunk_id := "1", title := "Overview", content := "body"
        level := "main", parent_chain := [] } = [] :=
  ⟨C2_sub_branch_shadowed.1 "1.1 Details".data (by decide),
   (C2_sub_branch_shadowed.2 ["1. Overview", "body"]
      { chunk_id := "1", title := "Overview", content := "body"
        level := "main", parent_chain := [] } (by decide)).2.2⟩

/-- C1: evaluating the chunker on the spec's six-line example.  The second
heading line `"1.1 Details"` is captured by the main-heading pattern (whose
`\s*` also matches the empty string), so the code emits
`{chunk_id := "1", title := "1 Details", level := "main", parent_chain := []}`
instead of the `{id: "1.1", title: "Details", level: Sub,
parent_chain: [{"1", "Overview"}]}` chunk that the claim (and the dead
sub-heading branch of the code itself) intend. -/
theorem C1_divergence :
    chunk_text_from_file
      ["1. Overview", "This is the intro.", "1.1 Details", "More info here.",
       "2. Next Chapter", "Final text."] =
    [{ chunk_id := "1", title := "Overview", content := "This is the intro."
       level := "main", parent_chain := [] },
     { chunk_id := "1", title := "1 Details", content := "More info here."
       level := "main", parent_chain := [] },
     { chunk_id := "2", title := "Next Chapter", content := "Final text."
       level := "main", parent_chain := [] }] := by decide

/-! ## Emitted ids follow the heading lines in source order (claim C6) -/

theorem closeChunk_map_id (st : ChunkState) :
    (closeChunk st).map (fun c => c.chunk_id) = idsOf st := by
  unfold closeChunk idsOf
  cases st.current_id <;> simp

theorem idsOf_processLine (st : ChunkState) (line : String) :
    idsOf (processLine st line) = idsOf st ++ (lineHeading line).toList := by
  unfold processLine lineHeading
  by_cases hempty : pyStrip line = ""
  · simp [hempty]
  · rcases hm : matchMain (pyStrip line).data with _ | ⟨gid, gtitle⟩
    · rcases hs : matchSub (pyStrip line).data with _ | ⟨sid, stitle⟩
      · simp [hempty, hm, hs, idsOf]
      · simp only [hempty, if_false, reduceIte, hm, hs]
        show idsOf _ = _
        unfold idsOf
        simp [closeChunk_map_id st, idsOf]
    · simp only [hempty, if_false, reduceIte, hm]
      show idsOf _ = _
      unfold idsOf
      simp [closeChunk_map_id st, idsOf]

theorem idsOf_foldl (lines : List String) :
    ∀ st : ChunkState,
      idsOf (lines.foldl processLine st) = idsOf st ++ lines.filterMap lineHeading := by
  induction lines with
  | nil => intro st; simp
  | cons l ls ih =>
    intro st
    rw [List.foldl_cons, ih, idsOf_processLine, List.filterMap_cons]
    cases lineHeading l <;> simp

/-- C6 (amended): the sequence of chunk ids equals, in order, the heading ids
of the input lines (main-pattern id first, else sub-pattern id) — so chunks
appear in source order and every opened chunk is emitted, even with empty
content; but the ids need not be pairwise distinct. -/
theorem C6_ids_in_source_order (lines : List String) :
    (chunk_text_from_file lines).map (fun c => c.chunk_id) =
      lines.filterMap lineHeading := by
  unfold chunk_text_from_file
  rw [closeChunk_map_id, idsOf_foldl]
  simp [idsOf]

/-- Counterexample to C6 as stated: the input `["1. Overview", "1.1 Details"]`
produces the chunk id sequence `["1", "1"]` (the main pattern captures the
sub-heading with id `"1"`), which is not pairwise distinct. -/
theorem C6_counterexample :
    ¬ ((chunk_text_from_file ["1. Overview", "1.1 Details"]).map
        (fun c => c.chunk_id)).Nodup := by decide

/-! ## Lemmas about `search` -/

theorem scoresFrom_length (qv : List ℝ) :
    ∀ (i : Nat) (vs : List (List ℝ)), (scoresFrom qv i vs).length = vs.length := by
  intro i vs
  induction vs generalizing i with
  | nil => rfl
  | cons v vs ih => simp [scoresFrom, ih]

theorem scoresFrom_mem_fst (qv : List ℝ) :
    ∀ (i : Nat) (vs : List (List ℝ)) (y : Nat × ℝ),
      y ∈ scoresFrom qv i vs → i ≤ y.1 := by
  intro i vs
  induction vs generalizing i with
  | nil => intro y hy; simp [scoresFrom] at hy
  | cons v vs ih =>
    intro y hy
    rcases List.mem_cons.1 hy with rfl | hy
    · exact le_refl _
    · exact le_trans (Nat.le_succ i) (ih (i + 1) y hy)

theorem scoresFrom_pairwise (qv : List ℝ) :
    ∀ (i : Nat) (vs : List (List ℝ)),
      (scoresFrom qv i vs).Pairwise (fun a b => a.1 < b.1) := by
  intro i vs
  induction vs generalizing i with
  | nil => exact List.Pairwise.nil
  | cons v vs ih =>
    refine List.pairwise_cons.2 ⟨fun y hy => ?_, ih (i + 1)⟩
    exact lt_of_lt_of_le (Nat.lt_succ_self i) (scoresFrom_mem_fst qv (i + 1) vs y hy)

theorem sorted_orderedInsert_simLex {x : Nat × ℝ} :
    ∀ {l : List (Nat × ℝ)}, l.Sorted simLex → (∀ y ∈ l, x.1 < y.1) →
      (@List.orderedInsert (Nat × ℝ) (fun a b => b.2 ≤ a.2)
        (fun a b => Real.decidableLE b.2 a.2) x l).Sorted simLex := by
  intro l
  induction l with
  | nil => intro _ _; simp [List.orderedInsert, List.sorted_singleton]
  | cons b t ih =>
    intro hs hx
    have hbt := (List.sorted_cons.1 hs).1
    have ht := (List.sorted_cons.1 hs).2
    rw [List.orderedInsert]
    by_cases hbx : b.2 ≤ x.2
    · rw [if_pos hbx]
      refine List.sorted_cons.2 ⟨fun y hy => ?_, hs⟩
      have hy2 : y.2 ≤ x.2 := by
        rcases List.mem_cons.1 hy with rfl | hyt
        · exact hbx
        · rcases hbt y hyt with hlt | ⟨heq, _⟩
          · exact le_trans (le_of_lt hlt) hbx
          · exact le_trans (le_of_eq heq.symm) hbx
      rcases lt_or_eq_of_le hy2 with hlt | heq
      · exact Or.inl hlt
      · refine Or.inr ⟨heq.symm, le_of_lt ?_⟩
        rcases List.mem_cons.1 hy with rfl | hyt
        · exact hx y (List.mem_cons_self _ _)
        · exact hx y (List.mem_cons_of_mem _ hyt)
    · rw [if_neg hbx]
      have hxb : x.2 < b.2 := lt_of_not_le hbx
      refine List.sorted_cons.2 ⟨fun y hy => ?_, ?_⟩
      · rcases (List.mem_orderedInsert _).1 hy with rfl | hyt
        · exact Or.inl hxb
        · exact hbt y hyt
      · exact ih ht (fun y hy => hx y (List.mem_cons_of_mem _ hy))

theorem sortScores_sorted {l : List (Nat × ℝ)}
    (h : l.Pairwise (fun a b => a.1 < b.1)) : (sortScores l).Sorted simLex := by
  induction l with
  | nil => exact List.sorted_nil
  | cons x xs ih =>
    have hxs := List.pairwise_cons.1 h
    refine sorted_orderedInsert_simLex (ih hxs.2) (fun y hy => ?_)
    exact hxs.1 y ((List.perm_insertionSort _ xs).mem_iff.1 hy)

theorem sortScores_perm (l : List (Nat × ℝ)) : (sortScores l).Perm l :=
  List.perm_insertionSort _ l

/-- C3: on a non-empty store (with well-formed parallel lists and homogeneous
dimensions, as required by the spec), `search` with `k ≥ 0` returns exactly
`min(k, size)` entries: the stored records ranked by cosine similarity
descending with insertion order as tie-break (a permutation of the full
scored list, sorted under `simLex`), each entry carrying its similarity; and
on an empty store `search` returns `[]` for every `k`. -/
theorem C3_search_topk {M : Type} [Inhabited M] (s : VectorStore M) (q : List ℝ)
    (hwf : s.Wf) (hdim : ∀ v ∈ s.vectors, v.length = q.length) :
    (s.vectors = [] → ∀ k : Int, s.search q k = []) ∧
    (s.vectors ≠ [] → ∀ k : Int, 0 ≤ k →
      (s.search q k).length = min k.toNat s.vectors.length ∧
      ∃ ranked : List (Nat × ℝ),
        ranked.Perm (scoresFrom q 0 s.vectors) ∧
        ranked.Sorted simLex ∧
        s.search q k = (ranked.take k.toNat).map (fun p =>
          { text := s.texts.getD p.1 "", metadata := s.metadata.getD p.1 default
            similarity := p.2 })) := by
  constructor
  · intro hnil k
    unfold VectorStore.search
    rw [hnil]
  · intro hne k hk
    obtain ⟨v, vs, hv⟩ := List.exists_cons_of_ne_nil hne
    have hsearch : s.search q k =
        (pySliceTo (sortScores (scoresFrom q 0 s.vectors)) k).map
          (fun p => { text := s.texts.getD p.1 "", metadata := s.metadata.getD p.1 default
                      similarity := p.2 }) := by
      unfold VectorStore.search
      rw [hv]
    have hslice : pySliceTo (sortScores (scoresFrom q 0 s.vectors)) k =
        (sortScores (scoresFrom q 0 s.vectors)).take k.toNat := by
      unfold pySliceTo
      rw [if_pos hk]
    have hlen : (sortScores (scoresFrom q 0 s.vectors)).length = s.vectors.length := by
      rw [(sortScores_perm _).length_eq, scoresFrom_length]
    refine ⟨?_, sortScores (scoresFrom q 0 s.vectors), sortScores_perm _,
      sortScores_sorted (scoresFrom_pairwise q 0 s.vectors), by rw [hsearch, hslice]⟩
    rw [hsearch, hslice, List.length_map, List.length_take, hlen]

/-- Witness for C3: on the concrete two-record store, `search` with `k = 5`
returns `min 5 2 = 2` entries. -/
theorem C3_search_topk_witness : (storeEx.search [0] 5).length = 2 := by
  have h := (C3_search_topk storeEx [0] ⟨rfl, rfl⟩ (by
    intro v hv
    have : v = [0] ∨ v = [0] ∨ False := by
      simpa [storeEx, VectorStore.add, VectorStore.empty] using hv
    rcases this with rfl | rfl | hfalse
    · rfl
    · rfl
    · exact absurd hfalse not_false)).2
      (by simp [storeEx, VectorStore.add, VectorStore.empty]) 5 (by norm_num)
  rw [h.1]
  rfl

/-- C9: the similarity used by `search` is `dot / (‖q‖·‖v‖)` except that `0.0`
is substituted whenever either norm is exactly zero; in the dividing branch
the denominator is provably non-zero, so no division by zero occurs. -/
theorem C9_zero_norm_substitution (q v : List ℝ) :
    ((pynorm q = 0 ∨ pynorm v = 0) → cosSim q v = 0) ∧
    (pynorm q ≠ 0 → pynorm v ≠ 0 →
      pynorm q * pynorm v ≠ 0 ∧
      cosSim q v = npDot q v / (pynorm q * pynorm v)) := by
  constructor
  · intro h
    unfold cosSim
    rw [if_neg]
    rcases h with h | h <;> simp [h]
  · intro hq hv
    refine ⟨mul_ne_zero hq hv, ?_⟩
    unfold cosSim
    rw [if_pos ⟨hq, hv⟩]

/-- Witness for C9: the zero query vector has norm zero, so its similarity to
`[1]` is the substituted `0`. -/
theorem C9_zero_norm_substitution_witness : cosSim [(0 : ℝ)] [(1 : ℝ)] = 0 :=
  (C9_zero_norm_substitution [(0 : ℝ)] [(1 : ℝ)]).1
    (Or.inl (by simp [pynorm, npDot]))

theorem cosSim_of_norm_zero {q v : List ℝ} (h : pynorm q = 0) : cosSim q v = 0 := by
  unfold cosSim
  rw [if_neg]
  exact fun hc => hc.1 h

theorem search_of_ne_nil {M : Type} [Inhabited M] (s : VectorStore M) (q : List ℝ)
    (k : Int) (hne : s.vectors ≠ []) :
    s.search q k = (pySliceTo (sortScores (scoresFrom q 0 s.vectors)) k).map
      (fun p => { text := s.texts.getD p.1 "", metadata := s.metadata.getD p.1 default
                  similarity := p.2 }) := by
  obtain ⟨v, vs, hv⟩ := List.exists_cons_of_ne_nil hne
  unfold VectorStore.search
  rw [hv]

/-- The two-record zero-vector store searched with the negative `k = -1`:
Python's `scores[:-1]` keeps the first of the two sorted entries. -/
theorem storeEx_search_neg_one :
    storeEx.search [0] (-1) = [{ text := "a", metadata := (), similarity := 0 }] := by
  have h0 : pynorm [(0 : ℝ)] = 0 := by simp [pynorm, npDot]
  have hsim : cosSim [(0 : ℝ)] [(0 : ℝ)] = 0 := cosSim_of_norm_zero h0
  have hvec : storeEx.vectors = [[0], [0]] := rfl
  rw [search_of_ne_nil storeEx [0] (-1) (by rw [hvec]; simp), hvec]
  have hscores : scoresFrom [(0 : ℝ)] 0 [[0], [0]] = [(0, 0), (1, 0)] := by
    simp [scoresFrom, hsim]
  rw [hscores]
  have hsorted : sortScores [((0 : Nat), (0 : ℝ)), (1, 0)] = [(0, 0), (1, 0)] := by
    simp [sortScores]
  rw [hsorted]
  unfold pySliceTo
  rw [if_neg (by norm_num)]
  norm_num
  rfl

/-- Counterexample to C4 as stated: for the two-record store and `k = -1 ≤ 0`,
`search` does not return the empty sequence — `scores[:k]` is a Python slice,
which for `-size < k < 0` keeps `size + k` entries. -/
theorem C4_counterexample : storeEx.search [0] (-1) ≠ [] := by
  rw [storeEx_search_neg_one]
  simp

/-- C4 (amended): for `k ≤ 0`, `search` returns the empty sequence when the
store is empty or `k = 0`; but for a non-empty store and `k < 0` it returns,
per Python slice semantics, the first `size + k` (clamped at zero) entries of
the ranked sequence — a take-prefix of the simLex-sorted permutation of the
scored records, each entry carrying its similarity. -/
theorem C4_nonpositive_k {M : Type} [Inhabited M] (s : VectorStore M) (q : List ℝ)
    (hwf : s.Wf) (hdim : ∀ v ∈ s.vectors, v.length = q.length) (k : Int) (hk : k ≤ 0) :
    (s.vectors = [] ∨ k = 0 → s.search q k = []) ∧
    (s.vectors ≠ [] → k ≠ 0 →
      (s.search q k).length = ((s.vectors.length : Int) + k).toNat ∧
      ∃ ranked : List (Nat × ℝ),
        ranked.Perm (scoresFrom q 0 s.vectors) ∧
        ranked.Sorted simLex ∧
        s.search q k = (ranked.take ((s.vectors.length : Int) + k).toNat).map (fun p =>
          { text := s.texts.getD p.1 "", metadata := s.metadata.getD p.1 default
            similarity := p.2 })) := by
  constructor
  · rintro (hnil | rfl)
    · unfold VectorStore.search
      rw [hnil]
    · by_cases hnil : s.vectors = []
      · unfold VectorStore.search
        rw [hnil]
      · rw [search_of_ne_nil s q 0 hnil]
        unfold pySliceTo
        rw [if_pos (le_refl (0 : Int))]
        simp
  · intro hne hk0
    have hlen : (sortScores (scoresFrom q 0 s.vectors)).length = s.vectors.length := by
      rw [(sortScores_perm _).length_eq, scoresFrom_length]
    have hsearch : s.search q k =
        ((sortScores (scoresFrom q 0 s.vectors)).take
            ((s.vectors.length : Int) + k).toNat).map (fun p =>
          { text := s.texts.getD p.1 "", metadata := s.metadata.getD p.1 default
            similarity := p.2 }) := by
      rw [search_of_ne_nil s q k hne]
      unfold pySliceTo
      rw [if_neg (by omega), hlen]
    refine ⟨?_, sortScores (scoresFrom q 0 s.vectors), sortScores_perm _,
      sortScores_sorted (scoresFrom_pairwise q 0 s.vectors), hsearch⟩
    rw [hsearch, List.length_map, List.length_take, hlen]
    omega

/-- Witness for C4 (amended): searching the two-record store with `k = -3`
yields `(2 - 3).toNat = 0` entries, and with `k = 0` the empty sequence. -/
theorem C4_nonpositive_k_witness :
    (storeEx.search [0] (-3)).length = 0 ∧ storeEx.search [0] 0 = [] := by
  have hdim : ∀ v ∈ storeEx.vectors, v.length = [(0 : ℝ)].length := by
    intro v hv
    have : v = [0] ∨ v = [0] ∨ False := by
      simpa [storeEx, VectorStore.add, VectorStore.empty] using hv
    rcases this with rfl | rfl | hfalse
    · rfl
    · rfl
    · exact absurd hfalse not_false
  have hne : storeEx.vectors ≠ [] := by
    simp [storeEx, VectorStore.add, VectorStore.empty]
  constructor
  · have h := ((C4_nonpositive_k storeEx [0] ⟨rfl, rfl⟩ hdim (-3) (by norm_num)).2
      hne (by norm_num)).1
    rw [h]
    have hl : storeEx.vectors.length = 2 := rfl
    rw [hl]
    rfl
  · exact (C4_nonpositive_k storeEx [0] ⟨rfl, rfl⟩ hdim 0 (le_refl 0)).1 (Or.inr rfl)

/-- C7: adding any sequence of records to a fresh store, saving it, and
loading the file into another fresh store reproduces the records exactly —
`load` returns `true` and the three parallel lists (embeddings bit-for-bit,
texts, metadata, in insertion order) coincide.  The Parquet layer itself is
external and modelled from the spec's persisted-index contract. -/
theorem C7_save_load_roundtrip {M : Type} (records : List (String × List ℝ × M)) :
    (VectorStore.load (VectorStore.empty M) (some (buildStore records).save)).1 = true ∧
    (VectorStore.load (VectorStore.empty M) (some (buildStore records).save)).2.vectors
      = (buildStore records).vectors ∧
    (VectorStore.load (VectorStore.empty M) (some (buildStore records).save)).2.texts
      = (buildStore records).texts ∧
    (VectorStore.load (VectorStore.empty M) (some (buildStore records).save)).2.metadata
      = (buildStore records).metadata :=
  ⟨rfl, rfl, rfl, rfl⟩

/-- C10: `load` on a missing file (`os.path.exists` false) returns `false`
without raising, and the store's vectors, texts and metadata are exactly as
before the call. -/
theorem C10_load_missing {M : Type} (s : VectorStore M) :
    (VectorStore.load s none).1 = false ∧
    (VectorStore.load s none).2.vectors = s.vectors ∧
    (VectorStore.load s none).2.texts = s.texts ∧
    (VectorStore.load s none).2.metadata = s.metadata :=
  ⟨rfl, rfl, rfl, rfl⟩

/-- C5: evaluating `_clean_line` on the claim's input (and on the example in
the code's own comment, which promises `"1 7 . Routing" → "17. Routing"`).
The trailing page number is stripped and the split numeral merged, but the
later rule `(\d+)\s*\.\s*(?=\S) → \1.` also swallows the space after the dot,
so the code returns `"17.Routing"`, not the claimed `"17. Routing"`. -/
theorem C5_divergence :
    _clean_line "1 7 . Routing 42" = "17.Routing" ∧
    _clean_line "1 7 . Routing" = "17.Routing" := by
  constructor <;> decide

/-- C8 (amended): only the index-building stage checks its *output* artifact
and skips (leaving the filesystem unchanged) when it exists; the extraction
and chunking stages check their *input* artifact — aborting cleanly, with no
write, when it is missing — but when the input exists they regenerate and
overwrite their output unconditionally. -/
theorem C8_stage_skip_behavior :
    (∀ (fs : FS) (embed : String → List ℝ), fs.embeddingsFile ≠ none →
      build_main embed fs = fs) ∧
    (∀ (fs : FS) (t : String), fs.pdf = none → extract_main t fs = fs) ∧
    (∀ fs : FS, fs.manualText = none → chunk_main fs = fs) ∧
    (∀ (fs : FS) (t : String), fs.pdf ≠ none → (extract_main t fs).manualText = some t) ∧
    (∀ (fs : FS) (t : String), fs.manualText = some t →
      (chunk_main fs).chunksFile = some (chunk_text_from_file (pyReadlines t))) := by
  refine ⟨?_, ?_, ?_, ?_, ?_⟩
  · intro fs embed h
    obtain ⟨f, hf⟩ := Option.ne_none_iff_exists'.1 h
    unfold build_main
    rw [hf]
  · intro fs t h
    unfold extract_main
    rw [h]
  · intro fs h
    unfold chunk_main
    rw [h]
  · intro fs t h
    obtain ⟨p, hp⟩ := Option.ne_none_iff_exists'.1 h
    unfold extract_main
    rw [hp]
  · intro fs t h
    unfold chunk_main
    rw [h]

/-- Witness for C8 (amended): with an existing index artifact the build stage
is the identity, and with a present manual text the chunking stage writes the
chunker's output. -/
theorem C8_stage_skip_behavior_witness :
    build_main (fun _ => []) fsIndexDemo = fsIndexDemo ∧
    (chunk_main fsChunkDemo).chunksFile =
      some (chunk_text_from_file (pyReadlines "1. A")) :=
  ⟨C8_stage_skip_behavior.1 fsIndexDemo (fun _ => []) (by simp [fsIndexDemo]),
   C8_stage_skip_behavior.2.2.2.2 fsChunkDemo "1. A" rfl⟩

/-- Counterexample to C8 as stated: the chunking stage does *not* leave an
existing output artifact unchanged — on a state whose chunks file already
holds an old chunk list, running the stage overwrites it. -/
theorem C8_counterexample : (chunk_main fsChunkDemo).chunksFile ≠ fsChunkDemo.chunksFile := by
  decide

end Ragbot
